import Mathlib

/-!
Verification of `neuralgcm/experimental/typing.py`: the `Timedelta`,
`Randomness` and `KeyWithCosLatFactor` value types and their pytree
(flatten/unflatten) registrations.

The embedding follows the Python source closely.  Machine integers are
modelled as `Int` (Python ints are unbounded).  Python's `divmod` uses
floor-division semantics, modelled with `Int.fdiv` / `Int.fmod`; for the
positive modulus `86400` these agree with Lean's `/` and `%` on `Int`
(Euclidean division), which the `make_def` lemma records.  Python's
`NotImplemented` return (the signal letting the interpreter fall back to
the other operand and finally raise `TypeError`) is modelled as `none` in
an `Option`-returning dynamic dispatch over a `PyVal` universe of
operand types.
-/

/-- Number of seconds in a day, the normalization modulus `24 * 60 * 60`. -/
def secondsPerDay : Int := 24 * 60 * 60

/-- `Timedelta`: a duration stored in `days` and `seconds`
(`@dataclasses.dataclass class Timedelta`).  Dataclass equality compares
the two fields, which is structural equality here. -/
structure Timedelta where
  days : Int
  seconds : Int
deriving DecidableEq, Repr

/-- Constructing `Timedelta(days, seconds)` runs `__post_init__`:
`days_delta, seconds = divmod(self.seconds, 24 * 60 * 60)`;
`self.days = self.days + days_delta`; `self.seconds = seconds`.
Python `divmod` is floor division, i.e. `Int.fdiv` / `Int.fmod`. -/
def Timedelta.make (days seconds : Int) : Timedelta :=
  { days := days + Int.fdiv seconds secondsPerDay
    seconds := Int.fmod seconds secondsPerDay }

/-- The normalization invariant documented for `Timedelta`:
`seconds` lies in `[0, 24 * 60 * 60)`. -/
def Timedelta.Normalized (t : Timedelta) : Prop :=
  0 ≤ t.seconds ∧ t.seconds < secondsPerDay

instance (t : Timedelta) : Decidable t.Normalized := by
  unfold Timedelta.Normalized; infer_instance

/-- `Timedelta.__add__` on a `Timedelta` right operand:
sums the fields and reconstructs (renormalizing via `__post_init__`). -/
def Timedelta.add (a b : Timedelta) : Timedelta :=
  Timedelta.make (a.days + b.days) (a.seconds + b.seconds)

/-- `Timedelta.__mul__` on a numeric right operand:
scales both fields and reconstructs (renormalizing via `__post_init__`). -/
def Timedelta.mul (t : Timedelta) (c : Int) : Timedelta :=
  Timedelta.make (t.days * c) (t.seconds * c)

/-- `__rmul__ = __mul__`: `c * t` dispatches to the very same method body,
so `t.__rmul__(c) = t.__mul__(c)`. -/
def Timedelta.rmul (c : Int) (t : Timedelta) : Timedelta :=
  Timedelta.mul t c

/-- Universe of Python operand values for the dynamic dispatch in
`__add__` / `__mul__`: a plain `int` (the `Numeric` scalar case), a
`Timedelta`, or some other non-numeric object (modelled by a string). -/
inductive PyVal where
  | intVal : Int → PyVal
  | tdVal : Timedelta → PyVal
  | strVal : String → PyVal
deriving DecidableEq

/-- `type(other) is Timedelta`, the exact check in `__add__`. -/
def PyVal.isTimedelta : PyVal → Bool
  | PyVal.tdVal _ => true
  | _ => false

/-- `isinstance(other, Numeric)` where `Numeric = float | int | Array`:
true exactly for plain numeric values, false for `Timedelta` and other
objects. -/
def PyVal.isNumeric : PyVal → Bool
  | PyVal.intVal _ => true
  | _ => false

/-- `Timedelta.__add__(self, other)` with dynamic operand:
`if type(other) is not Timedelta: return NotImplemented` (here `none`),
else component-wise sum renormalized. -/
def Timedelta.addOp (t : Timedelta) (other : PyVal) : Option Timedelta :=
  match other with
  | PyVal.tdVal u => some (t.add u)
  | _ => none

/-- `Timedelta.__mul__(self, other)` with dynamic operand:
`if not isinstance(other, Numeric): return NotImplemented` (here `none`),
else scale both fields renormalized. -/
def Timedelta.mulOp (t : Timedelta) (other : PyVal) : Option Timedelta :=
  match other with
  | PyVal.intVal c => some (t.mul c)
  | _ => none

/-- `Timedelta.tree_flatten`: `leaves = (self.days, self.seconds)`,
`aux_data = None` (modelled as `Unit`, carrying no information). -/
def Timedelta.tree_flatten (t : Timedelta) : (Int × Int) × Unit :=
  ((t.days, t.seconds), ())

/-- `Timedelta.tree_unflatten`: `return cls(*leaves)`, which runs the
constructor and therefore `__post_init__` again. -/
def Timedelta.tree_unflatten (aux : Unit) (leaves : Int × Int) : Timedelta :=
  Timedelta.make leaves.1 leaves.2

/-- `Randomness`: `prng_key` (an opaque array), `prng_step : int`, and an
arbitrary `core` payload; the key and core types are parameters since the
Python fields are `jax.Array` and `Any`. -/
structure Randomness (K C : Type) where
  prng_key : K
  prng_step : Int
  core : C
deriving DecidableEq, Repr

/-- `Randomness.tree_flatten`: `leaves = (prng_key, prng_step, core)`,
`aux_data = ()` (empty tuple, modelled as `Unit`). -/
def Randomness.tree_flatten {K C : Type} (r : Randomness K C) :
    (K × Int × C) × Unit :=
  ((r.prng_key, r.prng_step, r.core), ())

/-- `Randomness.tree_unflatten`: `return cls(*leaves, *aux_data)` — the
empty `aux_data` contributes no arguments. -/
def Randomness.tree_unflatten {K C : Type} (aux : Unit)
    (leaves : K × Int × C) : Randomness K C :=
  { prng_key := leaves.1, prng_step := leaves.2.1, core := leaves.2.2 }

/-- `KeyWithCosLatFactor`: frozen dataclass with `eq=True, order=True`,
fields `name : str` and `factor_order : int`. -/
structure KeyWithCosLatFactor where
  name : String
  factor_order : Int
deriving DecidableEq, Repr

/-- Python string `<`: lexicographic comparison of the character (code
point) sequences, executable by structural recursion. -/
def strLt : List Char → List Char → Bool
  | _, [] => false
  | [], _ :: _ => true
  | a :: as, b :: bs =>
    if a < b then true else if b < a then false else strLt as bs

/-- The `<` generated by `dataclasses.dataclass(order=True)`: comparison
of the field tuples `(name, factor_order)`, i.e. lexicographic. -/
def KeyWithCosLatFactor.ltKey (k1 k2 : KeyWithCosLatFactor) : Bool :=
  strLt k1.name.data k2.name.data ||
    (k1.name == k2.name && decide (k1.factor_order < k2.factor_order))

/-- `hash` of a frozen dataclass is derived from the field tuple. -/
def KeyWithCosLatFactor.keyHash (k : KeyWithCosLatFactor) : String × Int :=
  (k.name, k.factor_order)

-- Helper lemmas ------------------------------------------------------------

/-- For the positive modulus, Python floor `divmod` agrees with Lean's
Euclidean `/` and `%`. -/
theorem Timedelta.make_def (d s : Int) :
    Timedelta.make d s = ⟨d + s / secondsPerDay, s % secondsPerDay⟩ := by
  unfold Timedelta.make
  rw [Int.fdiv_eq_ediv _ (by decide : (0 : Int) ≤ secondsPerDay),
    Int.fmod_eq_emod _ (by decide : (0 : Int) ≤ secondsPerDay)]

theorem Timedelta.make_normalized (d s : Int) :
    (Timedelta.make d s).Normalized := by
  rw [Timedelta.make_def]
  exact ⟨Int.emod_nonneg s (by decide), Int.emod_lt_of_pos s (by decide)⟩

theorem Timedelta.make_eq_self {t : Timedelta} (h : t.Normalized) :
    Timedelta.make t.days t.seconds = t := by
  obtain ⟨h0, h1⟩ := h
  rw [Timedelta.make_def]
  cases t with
  | mk d s =>
    simp only at h0 h1 ⊢
    rw [Int.ediv_eq_zero_of_lt h0 h1, Int.emod_eq_of_lt h0 h1, Int.add_zero]

-- Claim theorems ------------------------------------------------------------

/-- C1: constructing `Timedelta(days, seconds)` yields `seconds` in
`[0, 86400)` and `days = days + floor(seconds / 86400)` (floor-division
semantics, so `Timedelta(0, -1)` is `days = -1, seconds = 86399`), and
the normalization invariant holds after every constructor and arithmetic
path: construction, addition, scalar multiplication and
`tree_unflatten`. -/
theorem timedelta_normalization_invariant :
    (∀ d s : Int, 0 ≤ (Timedelta.make d s).seconds ∧
      (Timedelta.make d s).seconds < 86400 ∧
      (Timedelta.make d s).days = d + Int.fdiv s 86400) ∧
    Timedelta.make 0 (-1) = ⟨-1, 86399⟩ ∧
    (∀ a b : Timedelta, (a.add b).Normalized) ∧
    (∀ (t : Timedelta) (c : Int), (t.mul c).Normalized) ∧
    (∀ l : Int × Int, (Timedelta.tree_unflatten () l).Normalized) := by
  refine ⟨fun d s => ?_, by decide, fun a b => ?_, fun t c => ?_, fun l => ?_⟩
  · obtain ⟨h0, h1⟩ := Timedelta.make_normalized d s
    exact ⟨h0, h1, rfl⟩
  · exact Timedelta.make_normalized _ _
  · exact Timedelta.make_normalized _ _
  · exact Timedelta.make_normalized _ _

/-- C2: addition of two `Timedelta`s is the `Timedelta` constructed from
the component-wise sums (renormalized), and for `d = Timedelta(1, 43200)`
we have `d + d = Timedelta(3, 0)`. -/
theorem timedelta_add_componentwise :
    (∀ a b : Timedelta,
      a.add b = Timedelta.make (a.days + b.days) (a.seconds + b.seconds)) ∧
    (Timedelta.make 1 43200).add (Timedelta.make 1 43200) =
      Timedelta.make 3 0 := by
  exact ⟨fun a b => rfl, by decide⟩

/-- C3: scalar multiplication scales both fields then renormalizes,
`c * t` dispatches to the same method as `t * c` (`__rmul__ = __mul__`,
hence commutativity), and `Timedelta(1, 43200) * 2 = Timedelta(3, 0)`
in both orders. -/
theorem timedelta_mul_scalar :
    (∀ (t : Timedelta) (c : Int),
      t.mul c = Timedelta.make (t.days * c) (t.seconds * c)) ∧
    (∀ (c : Int) (t : Timedelta), Timedelta.rmul c t = t.mul c) ∧
    (Timedelta.make 1 43200).mul 2 = Timedelta.make 3 0 ∧
    Timedelta.rmul 2 (Timedelta.make 1 43200) = Timedelta.make 3 0 := by
  exact ⟨fun t c => rfl, fun c t => rfl, by decide, by decide⟩

/-- C4: adding a `Timedelta` to any operand that is not a `Timedelta`
returns the not-supported signal (`NotImplemented`, modelled `none`)
instead of silently coercing. -/
theorem timedelta_add_non_timedelta_not_supported
    (t : Timedelta) (x : PyVal) (h : x.isTimedelta = false) :
    t.addOp x = none := by
  cases x with
  | intVal c => rfl
  | tdVal u => simp [PyVal.isTimedelta] at h
  | strVal s => rfl

/-- Witness for C4: `Timedelta(1, 43200) + 60` signals not-supported. -/
theorem timedelta_add_non_timedelta_not_supported_witness :
    (Timedelta.make 1 43200).addOp (PyVal.intVal 60) = none :=
  timedelta_add_non_timedelta_not_supported
    (Timedelta.make 1 43200) (PyVal.intVal 60) (by decide)

/-- C5: multiplying a `Timedelta` by another `Timedelta` returns the
not-supported signal, while multiplication by a plain numeric scalar is
supported and produces the scaled value. -/
theorem timedelta_mul_timedelta_not_supported :
    (∀ t u : Timedelta, t.mulOp (PyVal.tdVal u) = none) ∧
    (∀ (t : Timedelta) (c : Int),
      t.mulOp (PyVal.intVal c) = some (t.mul c)) := by
  exact ⟨fun t u => rfl, fun t c => rfl⟩

/-- C6: two `Timedelta`s are equal iff their normalized `(days, seconds)`
fields are equal; in particular `Timedelta(0, 86400) = Timedelta(1, 0)`
and `Timedelta(0, -1) = Timedelta(-1, 86399)`. -/
theorem timedelta_eq_iff_fields :
    (∀ a b : Timedelta, a = b ↔ a.days = b.days ∧ a.seconds = b.seconds) ∧
    Timedelta.make 0 86400 = Timedelta.make 1 0 ∧
    Timedelta.make 0 (-1) = Timedelta.make (-1) 86399 := by
  refine ⟨fun a b => ?_, by decide, by decide⟩
  constructor
  · rintro rfl; exact ⟨rfl, rfl⟩
  · rintro ⟨h1, h2⟩; cases a; cases b; cases h1; cases h2; rfl

/-- C7: `tree_flatten` of a `Timedelta` is exactly the ordered leaf pair
`(days, seconds)` with no metadata, `tree_unflatten` inverts it on every
constructed `Timedelta`, and mapping "multiply every leaf by 2" through
flatten/unflatten agrees with the direct arithmetic `d * 2`. -/
theorem timedelta_tree_roundtrip :
    (∀ t : Timedelta, t.tree_flatten = ((t.days, t.seconds), ())) ∧
    (∀ d s : Int,
      Timedelta.tree_unflatten (Timedelta.make d s).tree_flatten.2
        (Timedelta.make d s).tree_flatten.1 = Timedelta.make d s) ∧
    (∀ d s : Int,
      Timedelta.tree_unflatten ()
          (2 * (Timedelta.make d s).tree_flatten.1.1,
           2 * (Timedelta.make d s).tree_flatten.1.2) =
        (Timedelta.make d s).mul 2) := by
  refine ⟨fun t => rfl, fun d s => ?_, fun d s => ?_⟩
  · exact Timedelta.make_eq_self (Timedelta.make_normalized d s)
  · unfold Timedelta.tree_unflatten Timedelta.mul Timedelta.tree_flatten
    rw [Int.mul_comm 2 (Timedelta.make d s).days,
      Int.mul_comm 2 (Timedelta.make d s).seconds]

-- Order-theoretic helpers for KeyWithCosLatFactor ---------------------------

theorem strLt_iff (l1 l2 : List Char) :
    strLt l1 l2 = true ↔ List.Lex (· < ·) l1 l2 := by
  induction l1 generalizing l2 with
  | nil =>
    cases l2 with
    | nil => simp [strLt]
    | cons b bs => simp [strLt]; exact List.Lex.nil
  | cons a as ih =>
    cases l2 with
    | nil => simp [strLt]
    | cons b bs =>
      unfold strLt
      rcases lt_trichotomy a b with h | h | h
      · simp [h, not_lt_of_lt h]
        exact List.Lex.rel h
      · subst h
        simp [lt_irrefl, ih, List.Lex.cons_iff]
      · simp [h, not_lt_of_lt h]
        intro hlex
        cases hlex with
        | cons h' => exact lt_irrefl a h
        | rel h' => exact absurd h' (not_lt_of_lt h)

theorem strLt_iff_string (s1 s2 : String) :
    strLt s1.data s2.data = true ↔ s1 < s2 := by
  rw [strLt_iff]
  exact (String.lt_iff_toList_lt).symm

theorem KeyWithCosLatFactor.ltKey_iff (k1 k2 : KeyWithCosLatFactor) :
    KeyWithCosLatFactor.ltKey k1 k2 = true ↔
      (k1.name < k2.name ∨
        (k1.name = k2.name ∧ k1.factor_order < k2.factor_order)) := by
  unfold KeyWithCosLatFactor.ltKey
  rw [Bool.or_eq_true, Bool.and_eq_true, strLt_iff_string,
    beq_iff_eq, decide_eq_true_iff]

-- Remaining claim theorems --------------------------------------------------

/-- C8: `KeyWithCosLatFactor` is equality-comparable and hashable (hash
derived from the field pair), and `<` is a strict total order that is
lexicographic on `(name, factor_order)`; in particular
`("a", 1) < ("a", 2) < ("b", 0)`. -/
theorem keyWithCosLatFactor_lex_order :
    (∀ k1 k2 : KeyWithCosLatFactor,
      KeyWithCosLatFactor.ltKey k1 k2 = true ↔
        (k1.name < k2.name ∨
          (k1.name = k2.name ∧ k1.factor_order < k2.factor_order))) ∧
    (∀ k : KeyWithCosLatFactor, KeyWithCosLatFactor.ltKey k k = false) ∧
    (∀ k1 k2 k3 : KeyWithCosLatFactor,
      KeyWithCosLatFactor.ltKey k1 k2 = true →
      KeyWithCosLatFactor.ltKey k2 k3 = true →
      KeyWithCosLatFactor.ltKey k1 k3 = true) ∧
    (∀ k1 k2 : KeyWithCosLatFactor, k1 ≠ k2 →
      KeyWithCosLatFactor.ltKey k1 k2 = true ∨
      KeyWithCosLatFactor.ltKey k2 k1 = true) ∧
    (∀ k1 k2 : KeyWithCosLatFactor,
      k1 = k2 → k1.keyHash = k2.keyHash) ∧
    KeyWithCosLatFactor.ltKey ⟨"a", 1⟩ ⟨"a", 2⟩ = true ∧
    KeyWithCosLatFactor.ltKey ⟨"a", 2⟩ ⟨"b", 0⟩ = true := by
  refine ⟨KeyWithCosLatFactor.ltKey_iff, fun k => ?_, fun k1 k2 k3 h12 h23 => ?_,
    fun k1 k2 hne => ?_, fun k1 k2 h => by rw [h], by decide, by decide⟩
  · rw [Bool.eq_false_iff]
    intro h
    rcases (KeyWithCosLatFactor.ltKey_iff k k).mp h with h' | ⟨_, h'⟩ <;>
      exact lt_irrefl _ h'
  · rw [KeyWithCosLatFactor.ltKey_iff] at h12 h23 ⊢
    rcases h12 with h12 | ⟨e12, f12⟩ <;> rcases h23 with h23 | ⟨e23, f23⟩
    · exact Or.inl (lt_trans h12 h23)
    · exact Or.inl (e23 ▸ h12)
    · exact Or.inl (e12 ▸ h23)
    · exact Or.inr ⟨e12.trans e23, lt_trans f12 f23⟩
  · rw [KeyWithCosLatFactor.ltKey_iff, KeyWithCosLatFactor.ltKey_iff]
    by_cases hn : k1.name = k2.name
    · have hf : k1.factor_order ≠ k2.factor_order := by
        intro hf
        apply hne
        cases k1; cases k2
        simp only at hn hf
        rw [hn, hf]
      rcases lt_or_gt_of_ne hf with h | h
      · exact Or.inl (Or.inr ⟨hn, h⟩)
      · exact Or.inr (Or.inr ⟨hn.symm, h⟩)
    · rcases lt_or_gt_of_ne hn with h | h
      · exact Or.inl (Or.inl h)
      · exact Or.inr (Or.inl h)

/-- Witness for C8: the total-order clauses applied at concrete keys,
e.g. transitivity gives `("a", 1) < ("b", 0)`. -/
theorem keyWithCosLatFactor_lex_order_witness :
    KeyWithCosLatFactor.ltKey ⟨"a", 1⟩ ⟨"b", 0⟩ = true :=
  keyWithCosLatFactor_lex_order.2.2.1 ⟨"a", 1⟩ ⟨"a", 2⟩ ⟨"b", 0⟩
    (by decide) (by decide)

/-- C9: `Randomness.tree_flatten` yields exactly the ordered leaf triple
`(prng_key, prng_step, core)` with empty auxiliary data, and
`tree_unflatten` applied to that data reconstructs the original value,
for every key, step and core payload. -/
theorem randomness_tree_roundtrip :
    ∀ (K C : Type) (r : Randomness K C),
      r.tree_flatten = ((r.prng_key, r.prng_step, r.core), ()) ∧
      Randomness.tree_unflatten r.tree_flatten.2 r.tree_flatten.1 = r :=
  fun K C r => ⟨rfl, rfl⟩

/-- C10: `Timedelta` addition is commutative and associative, and the
default-constructed `Timedelta()` (which equals `Timedelta(0, 0)`) is a
two-sided identity on every normalized `Timedelta` — in particular on
every `Timedelta` the constructor can produce. -/
theorem timedelta_add_comm_monoid :
    (∀ a b : Timedelta, a.add b = b.add a) ∧
    (∀ a b c : Timedelta, (a.add b).add c = a.add (b.add c)) ∧
    Timedelta.make 0 0 = ⟨0, 0⟩ ∧
    (∀ a : Timedelta, a.Normalized →
      a.add (Timedelta.make 0 0) = a ∧ (Timedelta.make 0 0).add a = a) := by
  refine ⟨fun a b => ?_, fun a b c => ?_, by decide, fun a ha => ?_⟩
  · unfold Timedelta.add
    rw [Int.add_comm a.days, Int.add_comm a.seconds]
  · simp only [Timedelta.add, Timedelta.make_def, secondsPerDay,
      Timedelta.mk.injEq]
    constructor <;> omega
  · have h00 : Timedelta.make 0 0 = (⟨0, 0⟩ : Timedelta) := by decide
    constructor
    · rw [h00]
      show Timedelta.make (a.days + 0) (a.seconds + 0) = a
      rw [Int.add_zero, Int.add_zero]
      exact Timedelta.make_eq_self ha
    · rw [h00]
      show Timedelta.make (0 + a.days) (0 + a.seconds) = a
      rw [Int.zero_add, Int.zero_add]
      exact Timedelta.make_eq_self ha

/-- Witness for C10: the identity law applied at the concrete normalized
value `Timedelta(5, 100)`. -/
theorem timedelta_add_comm_monoid_witness :
    (Timedelta.make 5 100).Normalized ∧
    (Timedelta.make 5 100).add (Timedelta.make 0 0) = Timedelta.make 5 100 :=
  ⟨by decide,
    (timedelta_add_comm_monoid.2.2.2 (Timedelta.make 5 100) (by decide)).1⟩
